import Mathlib

/-!
Verification of the parent-chain finality provider `FinalityWithNull`
(`fendermint/vm/topdown/src/finality/null.rs`).

The provider's own logic is translated from the source file.  Helper types
that the source file imports from sibling crates (the sequential cache, the
resolved config accessors, the sealed proposal and the `ensure_sequential`
check) are not part of the provided sources and are modelled from the spec;
each such definition carries a doc comment saying so.

Machine integers: `BlockHeight` is Rust `u64`; we embed it as `Nat` and make
the two arithmetic operations of the source that can leave the `u64` range
explicit: the addition `last_committed_height + max_proposal_range` and the
subtraction `first_non_null_height - proposal_delay` in
`propose_next_height`.  A Rust arithmetic overflow/underflow, a failing
`unwrap`, a `debug_assert!` failure and the `unreachable!` branch are all
panics; we model a panic as `Except.error ()`.  An STM `abort` (used by
`new_parent_view`) is modelled as `Except.error e` carrying the typed error:
in the pure embedding an error result carries no updated state, matching the
source's transaction-abort semantics (no partial state change).
-/

deriving instance DecidableEq for Except

/-- Byte strings (Rust `Vec<u8>`). -/
abbrev BlockHash := List Nat

/-- Modelled from the spec: `StakingChangeRequest` (from `ipc_api::staking`,
not in the provided sources).  Only the monotone `configuration_number` is
interpreted; the rest of the record is kept opaque. -/
structure StakingChangeRequest where
  configuration_number : Nat
  change : Nat
deriving DecidableEq, Repr

/-- Modelled from the spec: `IpcEnvelope` (from `ipc_api::cross`, not in the
provided sources).  Only the monotone `nonce` is interpreted; the rest of the
record is kept opaque. -/
structure IpcEnvelope where
  nonce : Nat
  message : Nat
deriving DecidableEq, Repr

/-- `ParentViewPayload = (BlockHash, Vec<StakingChangeRequest>, Vec<IpcEnvelope>)`. -/
abbrev ParentViewPayload := BlockHash × List StakingChangeRequest × List IpcEnvelope

/-- `IPCParentFinality { height, block_hash }`. -/
structure IPCParentFinality where
  height : Nat
  block_hash : BlockHash
deriving DecidableEq, Repr

/-- Modelled from the spec: the resolved configuration values used by the
provider.  The source calls the accessors `Config::max_proposal_range()` and
`Config::proposal_delay()` (not in the provided sources); we model the values
they return (spec section 3: `max_proposal_range` is W, `proposal_delay` is D,
`max_cache_blocks` the optional cache bound). -/
structure Config where
  max_proposal_range : Nat
  max_cache_blocks : Option Nat
  proposal_delay : Nat
deriving DecidableEq, Repr

/-- The error type of the ingest path (spec section 7: the one error kind is
`NonSequentialParentViewInsert`, carrying the offending height). -/
inductive Error where
  | NonSequentialParentViewInsert : Nat → Error
deriving DecidableEq, Repr

/-- Modelled from the spec (section 4.1): `SequentialKeyCache`, an ordered map
over a contiguous integer key range (the crate that defines it is not in the
provided sources).  `lowerStart` is meaningful only when `data` is non-empty;
key `lowerStart + i` maps to `data[i]`. -/
structure SequentialKeyCache (V : Type) where
  lowerStart : Nat
  data : List V
deriving DecidableEq, Repr

namespace SequentialKeyCache

/-- `SequentialKeyCache::sequential()`: the empty cache with stride 1. -/
def sequential {V : Type} : SequentialKeyCache V := ⟨0, []⟩

def size {V : Type} (c : SequentialKeyCache V) : Nat := c.data.length

def lowerBound {V : Type} (c : SequentialKeyCache V) : Option Nat :=
  match c.data with
  | [] => none
  | _ :: _ => some c.lowerStart

def upperBound {V : Type} (c : SequentialKeyCache V) : Option Nat :=
  match c.data with
  | [] => none
  | _ :: _ => some (c.lowerStart + c.data.length - 1)

def get_value {V : Type} (c : SequentialKeyCache V) (k : Nat) : Option V :=
  if c.lowerStart ≤ k then c.data[k - c.lowerStart]? else none

/-- `append(k, v)`: succeeds on an empty cache, or when `k = upper_bound + 1`;
otherwise fails (non-sequential insert), reporting the offending key. -/
def append {V : Type} (c : SequentialKeyCache V) (k : Nat) (v : V) :
    Except Nat (SequentialKeyCache V) :=
  match c.data with
  | [] => .ok ⟨k, [v]⟩
  | _ :: _ =>
    if k = c.lowerStart + c.data.length then .ok ⟨c.lowerStart, c.data ++ [v]⟩
    else .error k

/-- `remove_key_below(k)`: deletes all entries with key `< k`. -/
def remove_key_below {V : Type} (c : SequentialKeyCache V) (k : Nat) :
    SequentialKeyCache V :=
  if k ≤ c.lowerStart then c else ⟨k, c.data.drop (k - c.lowerStart)⟩

end SequentialKeyCache

/-- Modelled from the spec (sections 3 and 6): `SealedTopdownProposal`
(from `fendermint_vm_message::ipc`, not in the provided sources): height,
block hash and the side effects covered by the proposal. -/
structure SealedTopdownProposal where
  height : Nat
  block_hash : BlockHash
  cross_msgs : List IpcEnvelope
  validator_changes : List StakingChangeRequest
deriving DecidableEq, Repr

namespace SealedTopdownProposal

/-- `SealedTopdownProposal::new(height, hash, cross_msgs, validator_changes)`. -/
def new (height : Nat) (hash : BlockHash) (cros : List IpcEnvelope)
    (vali : List StakingChangeRequest) : SealedTopdownProposal :=
  ⟨height, hash, cros, vali⟩

/-- `finality()`: the plain finality carried by the sealed proposal. -/
def finality (p : SealedTopdownProposal) : IPCParentFinality :=
  ⟨p.height, p.block_hash⟩

/-- Modelled from the spec (section 6): the commitment is a deterministic
content identifier over the canonical encoding of
`(cross_msgs_bytes || validator_changes_bytes)` — a deterministic,
order-sensitive function of exactly the two side-effect sequences.  We model
it as that canonical pair itself. -/
def commitment (p : SealedTopdownProposal) :
    List IpcEnvelope × List StakingChangeRequest :=
  (p.cross_msgs, p.validator_changes)

end SealedTopdownProposal

/-- Modelled from the spec (invariant I5): `ensure_sequential` (defined in
`finality/mod.rs`, not in the provided sources): the keyed values are
strictly consecutive (`f next = f prev + 1`). -/
def ensure_sequential {α : Type} (f : α → Nat) : List α → Bool
  | [] => true
  | [_] => true
  | a :: b :: rest => (f b == f a + 1) && ensure_sequential f (b :: rest)

/-- The transactional state of `FinalityWithNull`: the config, the genesis
epoch, the cached parent views and the last committed finality. -/
structure FinalityWithNull where
  config : Config
  genesis_epoch : Nat
  cached_data : SequentialKeyCache (Option ParentViewPayload)
  last_committed_finality : Option IPCParentFinality
deriving DecidableEq, Repr

/-- Whether the cache entry at `h` exists and is filled (not a null round). -/
def isFilled (c : SequentialKeyCache (Option ParentViewPayload)) (h : Nat) : Bool :=
  match c.get_value h with
  | some (some _) => true
  | _ => false

namespace FinalityWithNull

/-- `FinalityWithNull::new`. -/
def new (config : Config) (genesis_epoch : Nat)
    (committed_finality : Option IPCParentFinality) : FinalityWithNull :=
  { config := config
    genesis_epoch := genesis_epoch
    cached_data := SequentialKeyCache.sequential
    last_committed_finality := committed_finality }

/-- `cached_blocks()`. -/
def cached_blocks (s : FinalityWithNull) : Nat := s.cached_data.size

/-- `latest_height_in_cache()`. -/
def latest_height_in_cache (s : FinalityWithNull) : Option Nat :=
  s.cached_data.upperBound

/-- `get_at_height(height, f)`. -/
def get_at_height {α : Type} (s : FinalityWithNull) (height : Nat)
    (f : ParentViewPayload → α) : Option α :=
  match s.cached_data.get_value height with
  | some (some v) => some (f v)
  | _ => none

/-- `handle_null_block(height, f, d)`. -/
def handle_null_block {α : Type} (s : FinalityWithNull) (height : Nat)
    (f : ParentViewPayload → α) (d : Unit → α) : Option α :=
  (s.cached_data.get_value height).map fun v =>
    match v with
    | some i => f i
    | none => d ()

/-- `validator_changes(height)` (the payload extractor `validator_changes`
from `finality/mod.rs` projects the second component of the payload). -/
def validator_changes (s : FinalityWithNull) (height : Nat) :
    Option (List StakingChangeRequest) :=
  s.handle_null_block height (fun p => p.2.1) (fun _ => [])

/-- `top_down_msgs(height)` (the payload extractor `topdown_cross_msgs`
projects the third component of the payload). -/
def top_down_msgs (s : FinalityWithNull) (height : Nat) :
    Option (List IpcEnvelope) :=
  s.handle_null_block height (fun p => p.2.2) (fun _ => [])

/-- `block_hash_at_height(height)`. -/
def block_hash_at_height (s : FinalityWithNull) (height : Nat) : Option BlockHash :=
  match s.last_committed_finality with
  | some f =>
    if f.height = height then some f.block_hash
    else s.get_at_height height (fun p => p.1)
  | none => s.get_at_height height (fun p => p.1)

/-- `first_non_null_block(height)`: scan downwards; `fuel` bounds the scan at
`lower_bound` (the Rust loop is `for h in (lower_bound..=height).rev()`). -/
def firstNonNullAux (c : SequentialKeyCache (Option ParentViewPayload)) (h : Nat) :
    Nat → Option Nat
  | 0 => none
  | n + 1 => if isFilled c h then some h else firstNonNullAux c (h - 1) n

/-- `first_non_null_block(height)`: greatest filled height in
`[lower_bound, height]`. -/
def first_non_null_block (s : FinalityWithNull) (height : Nat) : Option Nat :=
  match s.cached_data.lowerBound with
  | none => none
  | some lower_bound =>
    if height < lower_bound then none
    else firstNonNullAux s.cached_data height (height + 1 - lower_bound)

/-- `propose_next_height()`.  `Except.error ()` models a panic: the
`unreachable!` when the committed finality is not seeded, a `u64` overflow of
`last_committed_height + max_proposal_range`, or a `u64` underflow of
`first_non_null_height - proposal_delay`. -/
def propose_next_height (s : FinalityWithNull) : Except Unit (Option Nat) :=
  match s.latest_height_in_cache with
  | none => .ok none
  | some latest_height =>
    match s.last_committed_finality with
    | none => .error ()
    | some lcf =>
      let last_committed_height := lcf.height
      if last_committed_height + s.config.max_proposal_range < 2 ^ 64 then
        let max_proposal_height := last_committed_height + s.config.max_proposal_range
        let candidate_height := min max_proposal_height latest_height
        match s.first_non_null_block candidate_height with
        | none => .ok none
        | some first_non_null_height =>
          if s.config.proposal_delay ≤ first_non_null_height then
            match s.first_non_null_block
                (first_non_null_height - s.config.proposal_delay) with
            | none => .ok none
            | some proposal_height =>
              if last_committed_height = proposal_height then .ok none
              else .ok (some proposal_height)
          else .error ()
      else .error ()

/-- `next_proposal()`.  The `.unwrap()` on the block hash is the
`Except.error ()` branch. -/
def next_proposal (s : FinalityWithNull) : Except Unit (Option IPCParentFinality) :=
  match s.propose_next_height with
  | .error e => .error e
  | .ok none => .ok none
  | .ok (some height) =>
    match s.block_hash_at_height height with
    | none => .error ()
    | some block_hash => .ok (some ⟨height, block_hash⟩)

/-- `check_height(height)`. -/
def check_height (s : FinalityWithNull) (height : Nat) : Bool :=
  match s.last_committed_finality with
  | none => false
  | some f =>
    if height ≤ f.height then false
    else
      match s.latest_height_in_cache with
      | some latest_height => decide (height ≤ latest_height)
      | none => false

/-- `check_block_hash(proposal)`. -/
def check_block_hash (s : FinalityWithNull) (proposal : IPCParentFinality) : Bool :=
  match s.block_hash_at_height proposal.height with
  | some block_hash => decide (block_hash = proposal.block_hash)
  | none => false

/-- `check_proposal(proposal)`. -/
def check_proposal (s : FinalityWithNull) (proposal : IPCParentFinality) : Bool :=
  if !s.check_height proposal.height then false
  else s.check_block_hash proposal

/-- `set_new_finality(finality, previous_finality)`.  The `debug_assert!`
failure is the `Except.error ()` branch. -/
def set_new_finality (s : FinalityWithNull) (finality : IPCParentFinality)
    (previous_finality : Option IPCParentFinality) :
    Except Unit FinalityWithNull :=
  if previous_finality = s.last_committed_finality then
    .ok { s with
          cached_data := s.cached_data.remove_key_below finality.height
          last_committed_finality := some finality }
  else .error ()

/-- `parent_block_filled(height, block_hash, validator_changes, top_down_msgs)`. -/
def parent_block_filled (s : FinalityWithNull) (height : Nat)
    (block_hash : BlockHash) (vcs : List StakingChangeRequest)
    (msgs : List IpcEnvelope) : Except Error FinalityWithNull :=
  if !msgs.isEmpty && !ensure_sequential (fun m => m.nonce) msgs then
    .error (.NonSequentialParentViewInsert height)
  else if !vcs.isEmpty &&
      !ensure_sequential (fun c => c.configuration_number) vcs then
    .error (.NonSequentialParentViewInsert height)
  else
    match s.cached_data.append height (some (block_hash, vcs, msgs)) with
    | .ok cache => .ok { s with cached_data := cache }
    | .error k => .error (.NonSequentialParentViewInsert k)

/-- `parent_null_round(height)`. -/
def parent_null_round (s : FinalityWithNull) (height : Nat) :
    Except Error FinalityWithNull :=
  match s.cached_data.append height none with
  | .ok cache => .ok { s with cached_data := cache }
  | .error k => .error (.NonSequentialParentViewInsert k)

/-- `new_parent_view(height, maybe_payload)`. -/
def new_parent_view (s : FinalityWithNull) (height : Nat)
    (maybe_payload : Option ParentViewPayload) : Except Error FinalityWithNull :=
  match maybe_payload with
  | some (block_hash, vcs, msgs) =>
    s.parent_block_filled height block_hash vcs msgs
  | none => s.parent_null_round height

/-- The side effects of the half-open height range `[lo, hi)`, in ascending
height order (the loop body of `proposal_sealed_till_height`). -/
def sideEffectsUpTo (s : FinalityWithNull) (lo hi : Nat) :
    List IpcEnvelope × List StakingChangeRequest :=
  (List.range (hi - lo)).foldl
    (fun acc i =>
      let h := lo + i
      let cm :=
        (s.handle_null_block h (fun p => p.2.2)
          (fun _ => ([] : List IpcEnvelope))).getD []
      let vc :=
        (s.handle_null_block h (fun p => p.2.1)
          (fun _ => ([] : List StakingChangeRequest))).getD []
      (acc.1 ++ cm, acc.2 ++ vc))
    ([], [])

/-- `proposal_sealed_till_height(height)`.  The two `.unwrap()`s (on the last
committed finality and on the block hash) are the `Except.error ()`
branches. -/
def proposal_sealed_till_height (s : FinalityWithNull) (height : Nat) :
    Except Unit (Option SealedTopdownProposal) :=
  match s.last_committed_finality with
  | none => .error ()
  | some lcf =>
    match s.block_hash_at_height height with
    | none => .error ()
    | some hash =>
      let se := s.sideEffectsUpTo lcf.height height
      .ok (some (SealedTopdownProposal.new height hash se.1 se.2))

/-- `sealed_proposal_at_height(target_height)`. -/
def sealed_proposal_at_height (s : FinalityWithNull) (target_height : Nat) :
    Except Unit (Option SealedTopdownProposal) :=
  match s.get_at_height target_height (fun v => v.1) with
  | none => .ok none
  | some _ => s.proposal_sealed_till_height target_height

/-- `check_sealed_proposal(proposal)`.  The `.unwrap()` on the rebuilt sealed
proposal is an `Except.error ()` branch. -/
def check_sealed_proposal (s : FinalityWithNull)
    (proposal : SealedTopdownProposal) : Except Unit Bool :=
  if !s.check_height proposal.finality.height then .ok false
  else
    match s.proposal_sealed_till_height proposal.finality.height with
    | .error e => .error e
    | .ok none => .error ()
    | .ok (some check) =>
      .ok (decide (proposal.commitment = check.commitment))

end FinalityWithNull

/-! ### Concrete states used by the theorems below -/

/-- The happy-path state of the source's own test suite: committed finality
`(100, [0])`, filled heights 101..107, `W = 6`, `D = 2`. -/
def happyState : FinalityWithNull :=
  { config := ⟨6, none, 2⟩
    genesis_epoch := 1
    cached_data := ⟨101, [some ([1], [], []), some ([2], [], []), some ([3], [], []),
      some ([4], [], []), some ([5], [], []), some ([6], [], []), some ([7], [], [])]⟩
    last_committed_finality := some ⟨100, [0]⟩ }

/-- A state whose single cached height (5) lies below the seeded committed
height (100); reachable, because `new_parent_view` accepts any first key on an
empty cache. -/
def sBelow : FinalityWithNull :=
  { config := ⟨6, none, 0⟩
    genesis_epoch := 1
    cached_data := ⟨5, [some ([5], [], [])]⟩
    last_committed_finality := some ⟨100, [0]⟩ }

/-- A committed state with cached heights 10..12 (11 a null round). -/
def sC3 : FinalityWithNull :=
  { config := ⟨6, none, 2⟩
    genesis_epoch := 1
    cached_data := ⟨10, [some ([0], [], []), none, some ([2], [], [])]⟩
    last_committed_finality := some ⟨10, [0]⟩ }

/-- `sC3` after committing `(12, [2])`. -/
def sC3' : FinalityWithNull :=
  { config := ⟨6, none, 2⟩
    genesis_epoch := 1
    cached_data := ⟨12, [some ([2], [], [])]⟩
    last_committed_finality := some ⟨12, [2]⟩ }

/-- A state whose cache already holds `max_cache_blocks = 1` entries. -/
def sC4 : FinalityWithNull :=
  { config := ⟨6, some 1, 2⟩
    genesis_epoch := 1
    cached_data := ⟨10, [none]⟩
    last_committed_finality := some ⟨9, [0]⟩ }

/-- Committed `(100, [0])`, height 101 filled with block hash `[1]` and no
side effects. -/
def sC5 : FinalityWithNull :=
  { config := ⟨6, none, 2⟩
    genesis_epoch := 1
    cached_data := ⟨101, [some ([1], [], [])]⟩
    last_committed_finality := some ⟨100, [0]⟩ }

/-- A sealed proposal for height 101 with the wrong block hash `[2]` but the
commitment of the empty side-effect range. -/
def pC5 : SealedTopdownProposal := ⟨101, [2], [], []⟩

/-- Committed `(100, [0])`, height 101 a null round. -/
def sC6 : FinalityWithNull :=
  { config := ⟨6, none, 2⟩
    genesis_epoch := 1
    cached_data := ⟨101, [none]⟩
    last_committed_finality := some ⟨100, [0]⟩ }

/-- A non-empty cache with upper bound 10. -/
def sC7 : FinalityWithNull :=
  { config := ⟨6, none, 2⟩
    genesis_epoch := 1
    cached_data := ⟨10, [none]⟩
    last_committed_finality := some ⟨9, [0]⟩ }

/-- A freshly created provider, cache still empty. -/
def sC8 : FinalityWithNull := FinalityWithNull.new ⟨6, none, 2⟩ 1 (some ⟨100, [0]⟩)

/-- `sC8` after ingesting a filled payload at height 101. -/
def sC8' : FinalityWithNull :=
  { config := ⟨6, none, 2⟩
    genesis_epoch := 1
    cached_data := ⟨101, [some ([1], [⟨3, 0⟩], [⟨7, 0⟩])]⟩
    last_committed_finality := some ⟨100, [0]⟩ }

/-- Committed height 1, single filled cache entry at height 2, but
`proposal_delay = 5`: the delay exceeds every cached height. -/
def sC10 : FinalityWithNull :=
  { config := ⟨6, none, 5⟩
    genesis_epoch := 1
    cached_data := ⟨2, [some ([2], [], [])]⟩
    last_committed_finality := some ⟨1, [0]⟩ }

/-! ### Cache lemmas -/

theorem SequentialKeyCache.append_ok_get_value {V : Type}
    {c c' : SequentialKeyCache V} {k : Nat} {v : V}
    (h : c.append k v = .ok c') : c'.get_value k = some v := by
  unfold append at h
  split at h
  · cases h
    simp [get_value]
  · split at h
    · cases h
      rename_i hd tl hdata hk
      simp only [get_value]
      rw [if_pos (by omega)]
      have hlen : k - c.lowerStart = c.data.length := by omega
      rw [hlen, List.getElem?_concat_length]
    · cases h

theorem SequentialKeyCache.append_ok_size {V : Type}
    {c c' : SequentialKeyCache V} {k : Nat} {v : V}
    (h : c.append k v = .ok c') : c'.size = c.size + 1 := by
  unfold append at h
  split at h
  · cases h
    rename_i hdata
    simp [size, hdata]
  · split at h
    · cases h
      simp [size]
    · cases h

theorem SequentialKeyCache.append_error_of_ne {V : Type} (c : SequentialKeyCache V)
    (k : Nat) (v : V) (u : Nat)
    (hu : c.upperBound = some u) (hne : k ≠ u + 1) : c.append k v = .error k := by
  unfold upperBound at hu
  unfold append
  split
  · rename_i hdata
    rw [hdata] at hu
    cases hu
  · rename_i hd tl hdata
    rw [hdata] at hu
    simp only [Option.some.injEq, List.length_cons] at hu
    have hlen : c.data.length = tl.length + 1 := by rw [hdata]; simp
    rw [if_neg (by omega)]

theorem SequentialKeyCache.append_next_ok {V : Type} (c : SequentialKeyCache V)
    (v : V) (u : Nat) (hu : c.upperBound = some u) :
    c.append (u + 1) v = .ok ⟨c.lowerStart, c.data ++ [v]⟩ := by
  unfold upperBound at hu
  unfold append
  split
  · rename_i hdata
    rw [hdata] at hu
    cases hu
  · rename_i hd tl hdata
    rw [hdata] at hu
    simp only [Option.some.injEq, List.length_cons] at hu
    have hlen : c.data.length = tl.length + 1 := by rw [hdata]; simp
    rw [if_pos (by omega)]

theorem SequentialKeyCache.remove_key_below_get_value {V : Type}
    (c : SequentialKeyCache V) (k j : Nat) :
    (c.remove_key_below k).get_value j = if j < k then none else c.get_value j := by
  unfold remove_key_below
  split
  · rename_i hks
    by_cases hjk : j < k
    · rw [if_pos hjk]
      simp only [get_value]
      rw [if_neg (by omega)]
    · rw [if_neg hjk]
  · rename_i hks
    by_cases hjk : j < k
    · rw [if_pos hjk]
      simp only [get_value]
      rw [if_neg (by omega)]
    · rw [if_neg hjk]
      simp only [get_value]
      rw [if_pos (by omega), if_pos (by omega), List.getElem?_drop]
      congr 1
      omega

/-! ### Provider lemmas -/

theorem firstNonNullAux_spec (c : SequentialKeyCache (Option ParentViewPayload)) :
    ∀ (n h h' : Nat), FinalityWithNull.firstNonNullAux c h n = some h' →
      isFilled c h' = true ∧ h' ≤ h ∧ h + 1 ≤ h' + n := by
  intro n
  induction n with
  | zero =>
    intro h h' hx
    simp [FinalityWithNull.firstNonNullAux] at hx
  | succ n ih =>
    intro h h' hx
    unfold FinalityWithNull.firstNonNullAux at hx
    by_cases hf : isFilled c h
    · rw [if_pos hf] at hx
      cases hx
      exact ⟨hf, Nat.le_refl _, by omega⟩
    · rw [if_neg hf] at hx
      obtain ⟨h1, h2, h3⟩ := ih (h - 1) h' hx
      exact ⟨h1, by omega, by omega⟩

theorem first_non_null_block_spec (s : FinalityWithNull) (H h' : Nat)
    (h : s.first_non_null_block H = some h') :
    isFilled s.cached_data h' = true ∧ h' ≤ H ∧
    ∃ lb, s.cached_data.lowerBound = some lb ∧ lb ≤ h' := by
  unfold FinalityWithNull.first_non_null_block at h
  split at h
  · cases h
  · rename_i lb hlb
    split at h
    · cases h
    · rename_i hH
      obtain ⟨h1, h2, h3⟩ := firstNonNullAux_spec s.cached_data (H + 1 - lb) H h' h
      exact ⟨h1, h2, lb, hlb, by omega⟩

theorem propose_next_height_spec (s : FinalityWithNull) (f : IPCParentFinality) (h : Nat)
    (hlc : s.last_committed_finality = some f)
    (hp : s.propose_next_height = .ok (some h)) :
    isFilled s.cached_data h = true ∧
    (∃ lb, s.cached_data.lowerBound = some lb ∧ lb ≤ h) ∧
    h ≤ f.height + s.config.max_proposal_range ∧
    h ≠ f.height ∧
    ∃ latest, s.latest_height_in_cache = some latest ∧
      h + s.config.proposal_delay ≤ latest := by
  unfold FinalityWithNull.propose_next_height at hp
  split at hp
  · simp at hp
  · rename_i latest hlatest
    split at hp
    · rename_i heq
      rw [hlc] at heq
      cases heq
    · rename_i lcf heq
      rw [hlc] at heq
      injection heq with heq'
      subst heq'
      dsimp only at hp
      split at hp
      · rename_i hov
        split at hp
        · simp at hp
        · rename_i nn1 heq2
          split at hp
          · rename_i hD
            split at hp
            · simp at hp
            · rename_i ph heq3
              split at hp
              · simp at hp
              · rename_i hne
                simp only [Except.ok.injEq, Option.some.injEq] at hp
                subst hp
                obtain ⟨hf1, hle1, lb1, hlb1, hlble1⟩ := first_non_null_block_spec s _ _ heq3
                obtain ⟨hf2, hle2, lb2, hlb2, hlble2⟩ := first_non_null_block_spec s _ _ heq2
                refine ⟨hf1, ⟨lb1, hlb1, hlble1⟩, by omega,
                  fun hfh => hne hfh.symm, latest, hlatest, ?_⟩
                omega
          · simp at hp
      · simp at hp

theorem propose_next_height_some_lc (s : FinalityWithNull) (h : Nat)
    (hp : s.propose_next_height = .ok (some h)) :
    ∃ f, s.last_committed_finality = some f := by
  unfold FinalityWithNull.propose_next_height at hp
  split at hp
  · simp at hp
  · split at hp
    · simp at hp
    · rename_i lcf heq
      exact ⟨lcf, heq⟩

theorem isFilled_block_hash (s : FinalityWithNull) (h : Nat)
    (hf : isFilled s.cached_data h = true) :
    ∃ bh, s.block_hash_at_height h = some bh := by
  unfold isFilled at hf
  split at hf
  · rename_i v heq
    unfold FinalityWithNull.block_hash_at_height
    split
    · rename_i f hfeq
      split
      · exact ⟨f.block_hash, rfl⟩
      · refine ⟨v.1, ?_⟩
        unfold FinalityWithNull.get_at_height
        rw [heq]
    · refine ⟨v.1, ?_⟩
      unfold FinalityWithNull.get_at_height
      rw [heq]
  · cases hf

theorem next_proposal_inv (s : FinalityWithNull) (p : IPCParentFinality)
    (hp : s.next_proposal = .ok (some p)) :
    s.propose_next_height = .ok (some p.height) ∧
    s.block_hash_at_height p.height = some p.block_hash := by
  unfold FinalityWithNull.next_proposal at hp
  split at hp
  · simp at hp
  · simp at hp
  · rename_i height heq
    split at hp
    · simp at hp
    · rename_i bh hbh
      simp only [Except.ok.injEq, Option.some.injEq] at hp
      subst hp
      exact ⟨heq, hbh⟩

theorem new_parent_view_ok_get (s s' : FinalityWithNull) (h : Nat)
    (payload : Option ParentViewPayload)
    (hok : s.new_parent_view h payload = .ok s') :
    s'.cached_data.get_value h = some payload ∧
    s'.cached_data.size = s.cached_data.size + 1 ∧
    s'.last_committed_finality = s.last_committed_finality := by
  unfold FinalityWithNull.new_parent_view at hok
  split at hok
  · rename_i bh vcs msgs
    unfold FinalityWithNull.parent_block_filled at hok
    split at hok
    · cases hok
    · split at hok
      · cases hok
      · split at hok
        · rename_i cache happ
          cases hok
          exact ⟨SequentialKeyCache.append_ok_get_value happ,
            SequentialKeyCache.append_ok_size happ, rfl⟩
        · cases hok
  · unfold FinalityWithNull.parent_null_round at hok
    split at hok
    · rename_i cache happ
      cases hok
      exact ⟨SequentialKeyCache.append_ok_get_value happ,
        SequentialKeyCache.append_ok_size happ, rfl⟩
    · cases hok

/-! ### Claims -/

/-- C1 counterexample: the claim quantifies over every seeded FinalityState,
but `new_parent_view` accepts any first key on an empty cache, so a reachable
state caches height 5 below the committed height 100 and `next_proposal`
returns height 5, violating `lc < h`. -/
theorem next_proposal_below_committed_cex :
    (FinalityWithNull.new ⟨6, none, 0⟩ 1 (some ⟨100, [0]⟩)).new_parent_view 5
      (some ([5], [], [])) = .ok sBelow ∧
    sBelow.last_committed_finality = some ⟨100, [0]⟩ ∧
    sBelow.next_proposal = .ok (some ⟨5, [5]⟩) ∧
    ¬ 100 < 5 := by decide

/-- C1 (amended): for a seeded FinalityState all of whose cached heights lie
at or above the committed height lc — as the documented lifecycle guarantees —
a height h returned by `next_proposal` satisfies `lc < h`, `h ≤ lc + W` and
`h + D ≤ latest_height_in_cache` (hence `h ≤ latest_height_in_cache - D`). -/
theorem next_proposal_bounds (s : FinalityWithNull) (f p : IPCParentFinality)
    (hlc : s.last_committed_finality = some f)
    (hinv : f.height ≤ s.cached_data.lowerBound.getD f.height)
    (hp : s.next_proposal = .ok (some p)) :
    f.height < p.height ∧
    p.height ≤ f.height + s.config.max_proposal_range ∧
    ∃ latest, s.latest_height_in_cache = some latest ∧
      p.height + s.config.proposal_delay ≤ latest := by
  obtain ⟨hph, hbh⟩ := next_proposal_inv s p hp
  obtain ⟨hf1, ⟨lb, hlb, hlble⟩, hle, hne, latest, hlatest, hdle⟩ :=
    propose_next_height_spec s f p.height hlc hph
  rw [hlb] at hinv
  simp only [Option.getD_some] at hinv
  exact ⟨by omega, hle, latest, hlatest, hdle⟩

/-- C1 witness: the happy-path state proposes height 104 and the bounds hold
with lc = 100, W = 6, D = 2, latest = 107. -/
theorem next_proposal_bounds_witness :
    (100 : Nat) < 104 ∧
    (104 : Nat) ≤ 100 + happyState.config.max_proposal_range ∧
    ∃ latest, happyState.latest_height_in_cache = some latest ∧
      104 + happyState.config.proposal_delay ≤ latest :=
  next_proposal_bounds happyState ⟨100, [0]⟩ ⟨104, [4]⟩ (by decide) (by decide) (by decide)

/-- C2: a height returned by `propose_next_height` always has a filled cache
entry, so the block-hash lookup inside `next_proposal` finds a hash and the
`unwrap` (the `Except.error` branch) is never reached. -/
theorem next_proposal_filled (s : FinalityWithNull) (h : Nat)
    (hp : s.propose_next_height = .ok (some h)) :
    isFilled s.cached_data h = true ∧
    ∃ bh, s.block_hash_at_height h = some bh ∧
      s.next_proposal = .ok (some ⟨h, bh⟩) := by
  obtain ⟨f, hlc⟩ := propose_next_height_some_lc s h hp
  obtain ⟨hf, -, -, -, -⟩ := propose_next_height_spec s f h hlc hp
  obtain ⟨bh, hbh⟩ := isFilled_block_hash s h hf
  refine ⟨hf, bh, hbh, ?_⟩
  unfold FinalityWithNull.next_proposal
  rw [hp]
  dsimp only
  rw [hbh]

/-- C2 witness: the happy-path state proposes height 104, which is filled. -/
theorem next_proposal_filled_witness :
    isFilled happyState.cached_data 104 = true ∧
    ∃ bh, happyState.block_hash_at_height 104 = some bh ∧
      happyState.next_proposal = .ok (some ⟨104, bh⟩) :=
  next_proposal_filled happyState 104 (by decide)

/-- C3: after `set_new_finality(f, prev)` succeeds, the last committed
finality is f, every cache key strictly below `f.height` is gone, and a
pre-existing entry at `f.height` is untouched. -/
theorem set_new_finality_spec (s s' : FinalityWithNull) (f : IPCParentFinality)
    (prev : Option IPCParentFinality)
    (hok : s.set_new_finality f prev = .ok s') :
    s'.last_committed_finality = some f ∧
    (∀ k, k < f.height → s'.cached_data.get_value k = none) ∧
    (∀ v, s.cached_data.get_value f.height = some v →
      s'.cached_data.get_value f.height = some v) := by
  unfold FinalityWithNull.set_new_finality at hok
  split at hok
  · cases hok
    refine ⟨rfl, ?_, ?_⟩
    · intro k hk
      rw [SequentialKeyCache.remove_key_below_get_value, if_pos hk]
    · intro v hv
      rw [SequentialKeyCache.remove_key_below_get_value, if_neg (by omega)]
      exact hv
  · cases hok

/-- C3 witness: committing `(12, [2])` on a state with cached heights 10..12
prunes 10 and 11 and keeps the entry at 12. -/
theorem set_new_finality_spec_witness :
    sC3'.last_committed_finality = some ⟨12, [2]⟩ ∧
    (∀ k, k < (12 : Nat) → sC3'.cached_data.get_value k = none) ∧
    (∀ v, sC3.cached_data.get_value 12 = some v →
      sC3'.cached_data.get_value 12 = some v) :=
  set_new_finality_spec sC3 sC3' ⟨12, [2]⟩ (some ⟨10, [0]⟩) (by decide)

/-- C4 counterexample: with `max_cache_blocks = 1` and a cache already holding
one entry, `new_parent_view` does not refuse: the sequential append succeeds
and the cache grows to 2 entries. -/
theorem new_parent_view_cache_bound_cex :
    sC4.config.max_cache_blocks = some 1 ∧ sC4.cached_data.size = 1 ∧
    Except.map (fun t => t.cached_data.size) (sC4.new_parent_view 11 none) =
      .ok 2 := by decide

/-- C4 (amended): the ingest path never reads `max_cache_blocks`: a sequential
append always succeeds and grows the cache by one, whatever its current size
and whatever bound is configured. -/
theorem new_parent_view_no_cache_bound (s : FinalityWithNull) (u : Nat)
    (hu : s.cached_data.upperBound = some u) :
    ∃ s', s.new_parent_view (u + 1) none = .ok s' ∧
      s'.cached_data.size = s.cached_data.size + 1 := by
  refine ⟨{ s with cached_data := ⟨s.cached_data.lowerStart,
    s.cached_data.data ++ [none]⟩ }, ?_, by simp [SequentialKeyCache.size]⟩
  unfold FinalityWithNull.new_parent_view FinalityWithNull.parent_null_round
  rw [SequentialKeyCache.append_next_ok s.cached_data none u hu]

/-- C4 witness: the full cache of the counterexample state accepts the
next sequential height. -/
theorem new_parent_view_no_cache_bound_witness :
    ∃ s', sC4.new_parent_view (10 + 1) none = .ok s' ∧
      s'.cached_data.size = sC4.cached_data.size + 1 :=
  new_parent_view_no_cache_bound sC4 10 (by decide)

/-- C5 counterexample: a sealed proposal whose block hash `[2]` differs from
the cached hash `[1]` at its height still passes `check_sealed_proposal`
(the commitment covers only the side effects), while
`check_proposal` on its finality fails — so the claimed equivalence with
`check_proposal` is false. -/
theorem check_sealed_proposal_hash_cex :
    sC5.check_sealed_proposal pC5 = .ok true ∧
    sC5.check_proposal pC5.finality = false := by decide

/-- C5 (amended): `check_sealed_proposal(p)` returns true iff `check_height`
accepts p's height (committed finality exists, `lc < h ≤ latest`) and the
commitment of the locally rebuilt sealed proposal equals p's commitment; the
block-hash comparison of `check_proposal` is not performed. -/
theorem check_sealed_proposal_iff (s : FinalityWithNull) (p : SealedTopdownProposal) :
    s.check_sealed_proposal p = .ok true ↔
      s.check_height p.finality.height = true ∧
      ∃ c, s.proposal_sealed_till_height p.finality.height = .ok (some c) ∧
        p.commitment = c.commitment := by
  unfold FinalityWithNull.check_sealed_proposal
  by_cases hh : s.check_height p.finality.height = true
  · rw [hh]
    cases hpst : s.proposal_sealed_till_height p.finality.height with
    | error e => simp
    | ok o =>
      cases o with
      | none => simp
      | some c => simp
  · rw [Bool.not_eq_true] at hh
    rw [hh]
    simp [hh]

/-- C5 witness: on the counterexample state the equivalence evaluates both
sides to true. -/
theorem check_sealed_proposal_iff_witness :
    sC5.check_sealed_proposal pC5 = .ok true ↔
      sC5.check_height pC5.finality.height = true ∧
      ∃ c, sC5.proposal_sealed_till_height pC5.finality.height = .ok (some c) ∧
        pC5.commitment = c.commitment :=
  check_sealed_proposal_iff sC5 pC5

/-- C6: `check_sealed_proposal` is not total: on a proposal whose height
passes `check_height` but whose cache entry is a null round, the unwrap in
`proposal_sealed_till_height` panics (the `Except.error` branch) instead of
the check returning false. -/
theorem check_sealed_proposal_null_panics :
    sC6.check_height 101 = true ∧
    sC6.cached_data.get_value 101 = some none ∧
    sC6.check_sealed_proposal ⟨101, [1], [], []⟩ = .error () := by decide

/-- C7: inserting at any height other than `upper_bound + 1` into a non-empty
cache fails with `NonSequentialParentViewInsert`; the error branch of the pure
embedding carries no updated state, which is the source's transaction abort
(no partial state change). -/
theorem new_parent_view_non_sequential (s : FinalityWithNull) (u h : Nat)
    (p : Option ParentViewPayload)
    (hu : s.cached_data.upperBound = some u) (hne : h ≠ u + 1) :
    s.new_parent_view h p = .error (Error.NonSequentialParentViewInsert h) := by
  unfold FinalityWithNull.new_parent_view
  split
  · rename_i bh vcs msgs
    unfold FinalityWithNull.parent_block_filled
    split
    · rfl
    · split
      · rfl
      · rw [SequentialKeyCache.append_error_of_ne s.cached_data h _ u hu hne]
  · unfold FinalityWithNull.parent_null_round
    rw [SequentialKeyCache.append_error_of_ne s.cached_data h _ u hu hne]

/-- C7 witness: inserting height 5 into a cache with upper bound 10 fails. -/
theorem new_parent_view_non_sequential_witness :
    sC7.new_parent_view 5 none = .error (Error.NonSequentialParentViewInsert 5) :=
  new_parent_view_non_sequential sC7 10 5 none (by decide) (by decide)

/-- C8: after ingesting at height h, `validator_changes(h)` and
`top_down_msgs(h)` return exactly the ingested sequences for a filled payload
and the empty sequences for a null round; for a height missing from the cache
they return none. -/
theorem ingested_side_effects_queries (s s' : FinalityWithNull) (h : Nat)
    (payload : Option ParentViewPayload)
    (hok : s.new_parent_view h payload = .ok s') :
    (∀ bh vcs msgs, payload = some (bh, vcs, msgs) →
      s'.validator_changes h = some vcs ∧ s'.top_down_msgs h = some msgs) ∧
    (payload = none →
      s'.validator_changes h = some [] ∧ s'.top_down_msgs h = some []) ∧
    (∀ h2, s'.cached_data.get_value h2 = none →
      s'.validator_changes h2 = none ∧ s'.top_down_msgs h2 = none) := by
  obtain ⟨hget, -, -⟩ := new_parent_view_ok_get s s' h payload hok
  refine ⟨?_, ?_, ?_⟩
  · intro bh vcs msgs hpl
    subst hpl
    constructor
    · unfold FinalityWithNull.validator_changes FinalityWithNull.handle_null_block
      rw [hget]
      rfl
    · unfold FinalityWithNull.top_down_msgs FinalityWithNull.handle_null_block
      rw [hget]
      rfl
  · intro hpl
    subst hpl
    constructor
    · unfold FinalityWithNull.validator_changes FinalityWithNull.handle_null_block
      rw [hget]
      rfl
    · unfold FinalityWithNull.top_down_msgs FinalityWithNull.handle_null_block
      rw [hget]
      rfl
  · intro h2 hnone
    constructor
    · unfold FinalityWithNull.validator_changes FinalityWithNull.handle_null_block
      rw [hnone]
      rfl
    · unfold FinalityWithNull.top_down_msgs FinalityWithNull.handle_null_block
      rw [hnone]
      rfl

/-- C8 witness: ingesting a filled payload at height 101 into a fresh
provider. -/
theorem ingested_side_effects_queries_witness :
    (∀ bh vcs msgs,
      (some (([1], [⟨3, 0⟩], [⟨7, 0⟩]) : ParentViewPayload)) = some (bh, vcs, msgs) →
      sC8'.validator_changes 101 = some vcs ∧ sC8'.top_down_msgs 101 = some msgs) ∧
    ((some (([1], [⟨3, 0⟩], [⟨7, 0⟩]) : ParentViewPayload)) = none →
      sC8'.validator_changes 101 = some [] ∧ sC8'.top_down_msgs 101 = some []) ∧
    (∀ h2, sC8'.cached_data.get_value h2 = none →
      sC8'.validator_changes h2 = none ∧ sC8'.top_down_msgs h2 = none) :=
  ingested_side_effects_queries sC8 sC8' 101
    (some ([1], [⟨3, 0⟩], [⟨7, 0⟩])) (by decide)

/-- C9 counterexample: on the reachable state whose cached height 5 lies below
the committed height 100, `next_proposal` yields `(5, [5])` but
`check_proposal` rejects it (`check_height` sees `5 ≤ lc`), so the round-trip
fails. -/
theorem check_own_proposal_cex :
    sBelow.next_proposal = .ok (some ⟨5, [5]⟩) ∧
    sBelow.check_proposal ⟨5, [5]⟩ = false := by decide

/-- C9 (amended): for a seeded FinalityState all of whose cached heights lie
at or above the committed height — as the documented lifecycle guarantees —
a proposal returned by `next_proposal` always passes `check_proposal`. -/
theorem check_own_proposal (s : FinalityWithNull) (f p : IPCParentFinality)
    (hlc : s.last_committed_finality = some f)
    (hinv : f.height ≤ s.cached_data.lowerBound.getD f.height)
    (hp : s.next_proposal = .ok (some p)) :
    s.check_proposal p = true := by
  obtain ⟨hph, hbh⟩ := next_proposal_inv s p hp
  obtain ⟨hf1, ⟨lb, hlb, hlble⟩, hle, hne, latest, hlatest, hdle⟩ :=
    propose_next_height_spec s f p.height hlc hph
  rw [hlb] at hinv
  simp only [Option.getD_some] at hinv
  have hch : s.check_height p.height = true := by
    unfold FinalityWithNull.check_height
    rw [hlc]
    dsimp only
    rw [if_neg (by omega)]
    rw [hlatest]
    dsimp only
    simp only [decide_eq_true_eq]
    omega
  have hcb : s.check_block_hash p = true := by
    unfold FinalityWithNull.check_block_hash
    rw [hbh]
    simp
  unfold FinalityWithNull.check_proposal
  rw [hch, hcb]
  rfl

/-- C9 witness: the happy-path proposal `(104, [4])` verifies. -/
theorem check_own_proposal_witness :
    happyState.check_proposal ⟨104, [4]⟩ = true :=
  check_own_proposal happyState ⟨100, [0]⟩ ⟨104, [4]⟩ (by decide) (by decide) (by decide)

/-- C10: with `proposal_delay = 5` and the only filled cached height 2, the
subtraction `first_non_null_height - proposal_delay` in
`propose_next_height` underflows `u64` (the `Except.error` branch): the
operation is not total and does not return none. -/
theorem propose_next_height_underflow :
    sC10.first_non_null_block (min (1 + sC10.config.max_proposal_range) 2) = some 2 ∧
    (2 : Nat) < sC10.config.proposal_delay ∧
    sC10.propose_next_height = .error () ∧
    sC10.next_proposal = .error () := by decide
